import Mathlib

/-!
Shallow embedding of the FlareCloud object-serving worker.

The repository holds two variants of the same Cloudflare-Workers-style
handler serving objects from an R2 bucket:

* `src/r2_worker.js` — the *deferred-size* variant: `parseRange` is given a
  configured maximum byte length, open-ended ranges are capped at that
  maximum, and the object's true size is reconciled after the fetch.
* `src/unnamed/part_000` — the *eager-size* variant: a `head` probe fetches
  the object size first and `parseRange` is given that known size.

JS numbers are modelled as `Int` (digit strings in a `Range` header parse to
naturals; `size - 1` can genuinely be `-1` when `size = 0`, so window fields
are `Int`).  `Number.isFinite` on the result of parsing a digit string is
always true in this model (JS returns `Infinity` only for digit strings of
more than ~308 characters, which we do not model).  Strings are `List Char`.
JS string falsiness (null or `""`) is modelled where the source relies on it.
The platform built-in `decodeURIComponent` is not repository code; the key
normalizer takes its result (`none` = the built-in threw) as input.
-/

namespace FlareCloud

/-- `l₁` is a prefix-wise match of `l₂` (JS `String.prototype.startsWith`). -/
def listStartsWith : List Char → List Char → Bool
  | [], _ => true
  | _ :: _, [] => false
  | p :: ps, c :: cs => p == c && listStartsWith ps cs

/-- JS `String.prototype.includes`: `pat` occurs contiguously in the list. -/
def containsSub (pat : List Char) : List Char → Bool
  | [] => listStartsWith pat []
  | c :: rest => listStartsWith pat (c :: rest) || containsSub pat rest

/-- The NUL character `"\0"` tested by `normalizeKey`. -/
def nulChar : Char := Char.ofNat 0

/-- JS `key.endsWith("/")`. -/
def endsWithSlash (l : List Char) : Bool := l.getLast? == some '/'

/--
`normalizeKey(pathname)` from both source files (they are identical).
The argument is the result of `decodeURIComponent(pathname)`; `none` models
the built-in throwing `URIError`, caught by the source's `try`/`catch`.
`key.replace(/^\/+/, "")` strips all leading slashes.
-/
def normalizeKey (decoded : Option (List Char)) : Option (List Char) :=
  match decoded with
  | none => none
  | some k0 =>
    let key := k0.dropWhile (· == '/')
    if key = [] then some "index.html".toList
    else if endsWithSlash key then some (key ++ "index.html".toList)
    else if containsSub ['.', '.'] key || containsSub [nulChar] key then none
    else some key

/-- Numeric value of a decimal digit character. -/
def digitVal (c : Char) : Nat := c.toNat - 48

/-- Accumulator loop for decimal parsing. -/
def digitsToNatAux (acc : Nat) : List Char → Nat
  | [] => acc
  | c :: cs => digitsToNatAux (acc * 10 + digitVal c) cs

/-- JS `Number(s)` on a (non-empty) pure digit string `s`. -/
def digitsToNat (ds : List Char) : Nat := digitsToNatAux 0 ds

/--
The regex match `header.match(/^bytes=(\d*)-(\d*)$/)` used by both variants:
the header must literally start with `bytes=`, followed by a (possibly empty)
run of digits, one `-`, and a (possibly empty) run of digits.  Returns the
two capture groups.
-/
def matchBytesRange (s : List Char) : Option (List Char × List Char) :=
  match s with
  | 'b' :: 'y' :: 't' :: 'e' :: 's' :: '=' :: rest =>
    let ds1 := rest.takeWhile Char.isDigit
    match rest.dropWhile Char.isDigit with
    | '-' :: ds2 => if ds2.all Char.isDigit then some (ds1, ds2) else none
    | _ => none
  | _ => none

/-- `hasValidRangeFormat(header)` from the eager-size variant:
`header && /^bytes=\d*-\d*$/.test(header)` (empty string is falsy). -/
def hasValidRangeFormat (header : Option (List Char)) : Bool :=
  match header with
  | none => false
  | some h => !(h.isEmpty) && (matchBytesRange h).isSome

/-- A resolved byte window `{offset, length, start, end}` (the source's
`end` field is named `last` here because `end` is a Lean keyword). -/
structure ByteWindow where
  offset : Int
  length : Int
  start : Int
  last : Int
deriving DecidableEq, Repr

/-- Result of the deferred-size variant's `parseRange` (`src/r2_worker.js`):
`null`, `{invalid:true}`, `{tooLarge:true}` or a window. -/
inductive RangeParseD where
  | noRange
  | invalid
  | tooLarge
  | window (w : ByteWindow)
deriving DecidableEq, Repr

/--
`parseRange(rangeHeader, maxBytes)` from `src/r2_worker.js`.
`noRange` models the JS `null` return (header absent or falsy-empty).
The source's `!Number.isFinite(start) || start < 0` test is the `start < 0`
test here (a parsed digit string is never negative, so it is vacuous).
-/
def parseRange (rangeHeader : Option (List Char)) (maxBytes : Int) : RangeParseD :=
  match rangeHeader with
  | none => .noRange
  | some h =>
    if h.isEmpty then .noRange
    else
      match matchBytesRange h with
      | none => .invalid
      | some (startStr, endStr) =>
        if startStr = [] ∧ endStr = [] then .invalid
        else if startStr = [] then .invalid
        else
          let start : Int := digitsToNat startStr
          if start < 0 then .invalid
          else
            match endStr with
            | [] =>
              let length := maxBytes
              let last := start + length - 1
              if length > maxBytes then .tooLarge
              else .window ⟨start, length, start, last⟩
            | _ :: _ =>
              let last : Int := digitsToNat endStr
              if last < start then .invalid
              else
                let length := last - start + 1
                if length > maxBytes then .tooLarge
                else .window ⟨start, length, start, last⟩

/-- Result of the eager-size variant's `parseRange` (`src/unnamed/part_000`):
`null` (also used for every invalid header), `{unsatisfiable:true}`
or a window. -/
inductive RangeParseE where
  | noRange
  | unsatisfiable
  | window (w : ByteWindow)
deriving DecidableEq, Repr

/--
`parseRange(rangeHeader, size)` from `src/unnamed/part_000`.  Note this
variant returns `null` (`noRange`) for malformed and invalid headers alike;
its caller then falls through to the full-object path.
-/
def parseRangeE (rangeHeader : Option (List Char)) (size : Int) : RangeParseE :=
  match rangeHeader with
  | none => .noRange
  | some h =>
    if h.isEmpty then .noRange
    else
      match matchBytesRange h with
      | none => .noRange
      | some (startStr, endStr) =>
        if startStr = [] ∧ endStr = [] then .noRange
        else if startStr = [] then
          let suffix : Int := digitsToNat endStr
          if suffix ≤ 0 then .noRange
          else
            let length := min suffix size
            let start := max 0 (size - length)
            let last := size - 1
            .window ⟨start, length, start, last⟩
        else
          let start : Int := digitsToNat startStr
          if start < 0 then .noRange
          else
            match endStr with
            | [] =>
              if start ≥ size then .unsatisfiable
              else
                let last := size - 1
                let length := size - start
                .window ⟨start, length, start, last⟩
            | _ :: _ =>
              let last : Int := digitsToNat endStr
              if last < start then .noRange
              else if start ≥ size then .unsatisfiable
              else
                let clampedEnd := min last (size - 1)
                let length := clampedEnd - start + 1
                .window ⟨start, length, start, clampedEnd⟩

/-- `DEFAULT_MAX_RANGE_BYTES = 8 * 1024 * 1024` from `src/r2_worker.js`. -/
def DEFAULT_MAX_RANGE_BYTES : Int := 8 * 1024 * 1024

/--
`getMaxRangeBytes(env)` from `src/r2_worker.js`: `Number(env?.RANGE_MAX_BYTES)`
must be finite and positive, else the default applies.  The argument models
the configured value as a number (`none` = unset or non-numeric, i.e. `NaN`).
-/
def getMaxRangeBytes (configured : Option Int) : Int :=
  match configured with
  | some value => if 0 < value then value else DEFAULT_MAX_RANGE_BYTES
  | none => DEFAULT_MAX_RANGE_BYTES

/-- HTTP method; the source only distinguishes `GET`, `HEAD` and everything
else (`request.method !== "GET" && request.method !== "HEAD"`). -/
inductive Method where
  | GET
  | HEAD
  | other
deriving DecidableEq, Repr

/-- The request headers the handler reads: the `Range` header (`none` when
absent) and, opaquely, the conditional validators forwarded as `onlyIf` to
the bucket. -/
structure ReqHeaders where
  range : Option (List Char)
  cond : List Char
deriving DecidableEq, Repr

/-- An incoming request.  `pathDecoded` is `decodeURIComponent(url.pathname)`
(`none` if the built-in threw). -/
structure Request where
  method : Method
  pathDecoded : Option (List Char)
  headers : ReqHeaders
deriving DecidableEq, Repr

/-- An R2 `get` result: metadata plus `body` (`none` models `obj.body` being
null, i.e. a conditional match).  `size` is `none` when `obj.size` is not a
number (the deferred variant tests `typeof totalSize === "number"`).
`cacheControl` is `obj.httpMetadata?.cacheControl`; `contentType` stands for
the rest of the stored HTTP metadata written by `obj.writeHttpMetadata`. -/
structure GetResult where
  size : Option Int
  httpEtag : List Char
  uploadedUTC : List Char
  cacheControl : Option (List Char)
  contentType : Option (List Char)
  body : Option (List Char)
deriving DecidableEq, Repr

/-- An R2 `head` result (only the size is read by the eager variant). -/
structure HeadResult where
  size : Int
deriving DecidableEq, Repr

/-- The response headers this handler ever sets, each `none` when unset. -/
structure HeadersOut where
  etag : Option (List Char) := none
  lastModified : Option (List Char) := none
  acceptRanges : Option (List Char) := none
  cacheControl : Option (List Char) := none
  contentType : Option (List Char) := none
  contentRange : Option (List Char) := none
  contentLength : Option (List Char) := none
  allow : Option (List Char) := none
deriving DecidableEq, Repr

/-- An outgoing response. -/
structure Response where
  status : Nat
  headers : HeadersOut := {}
  body : Option (List Char) := none
deriving DecidableEq, Repr

/-- Environment of the deferred-size variant: the `RANGE_MAX_BYTES`
configuration (as a number, `none` = unset/NaN) and the bucket's `get`,
a pure function of key, `onlyIf` headers and optional `(offset, length)`. -/
structure EnvD where
  rangeMaxBytes : Option Int
  bucketGet : List Char → ReqHeaders → Option (Int × Int) → Option GetResult

/-- Environment of the eager-size variant: the bucket's `head` and `get`. -/
structure EnvE where
  bucketHead : List Char → Option HeadResult
  bucketGet : List Char → ReqHeaders → Option (Int × Int) → Option GetResult

/-- Decimal rendering of an integer (JS template-literal interpolation). -/
def intStr (n : Int) : List Char := (toString n).toList

/-- `String(obj.size)`: `obj.size` may be undefined in the full-object path;
`String(undefined)` is `"undefined"`. -/
def sizeStr : Option Int → List Char
  | some n => intStr n
  | none => "undefined".toList

/-- The `Content-Range` value `` `bytes ${start}-${end}/${total}` `` (the
deferred variant writes `/*` when the total size is not a number). -/
def contentRangeStr (start last : Int) (total : Option Int) : List Char :=
  "bytes ".toList ++ intStr start ++ '-' :: intStr last ++
    '/' :: (match total with | some t => intStr t | none => ['*'])

/-- The 416 `Content-Range` value `` `bytes */${size}` ``. -/
def contentRangeUnsat (total : Int) : List Char :=
  "bytes */".toList ++ intStr total

/-- JS truthiness of `obj.httpMetadata?.cacheControl` (absent or empty string
is falsy). -/
def truthyStr : Option (List Char) → Bool
  | some (_ :: _) => true
  | _ => false

/-- `build304Headers(obj)` from both source files: exactly `ETag`,
`Last-Modified` and (when truthy) `Cache-Control`. -/
def build304Headers (obj : GetResult) : HeadersOut :=
  { etag := some obj.httpEtag
    lastModified := some obj.uploadedUTC
    cacheControl := if truthyStr obj.cacheControl then obj.cacheControl else none }

/-- `obj.writeHttpMetadata(headers)`: the R2 runtime writes the stored HTTP
metadata fields that are present into the header set. -/
def writeHttpMetadata (obj : GetResult) (h : HeadersOut) : HeadersOut :=
  { h with
    contentType := match obj.contentType with | some v => some v | none => h.contentType
    cacheControl := match obj.cacheControl with | some v => some v | none => h.cacheControl }

/-- `withCommonHeaders(obj, headers)` from both source files. -/
def withCommonHeaders (obj : GetResult) (h : HeadersOut) : HeadersOut :=
  let h := writeHttpMetadata obj h
  let h := { h with
    etag := some obj.httpEtag
    lastModified := some obj.uploadedUTC
    acceptRanges := some "bytes".toList }
  if h.cacheControl = none then
    { h with cacheControl := some "public, max-age=3600".toList }
  else h

/-- `request.method === "HEAD" ? null : obj.body` — body selection on the
success paths. -/
def bodyFor (m : Method) (b : List Char) : Option (List Char) :=
  if m = Method.HEAD then none else some b

/-- The shared full-object tail of both `fetch` functions (identical text in
the two source files): unconditional-range `get`, then 404 / 304 / 200. -/
def respondFull (req : Request)
    (get : List Char → ReqHeaders → Option (Int × Int) → Option GetResult)
    (key : List Char) : Response :=
  match get key req.headers none with
  | none => { status := 404, body := some "Not Found".toList }
  | some obj =>
    match obj.body with
    | none => { status := 304, headers := build304Headers obj }
    | some b =>
      let headers := withCommonHeaders obj {}
      { status := 200
        headers := { headers with contentLength := some (sizeStr obj.size) }
        body := bodyFor req.method b }

/-- `fetch(request, env)` of the deferred-size variant (`src/r2_worker.js`). -/
def fetchDeferred (req : Request) (env : EnvD) : Response :=
  match req.method with
  | .other =>
    { status := 405, headers := { allow := some "GET, HEAD".toList }
      body := some "Method Not Allowed".toList }
  | _ =>
    match normalizeKey req.pathDecoded with
    | none => { status := 400, body := some "Bad Request".toList }
    | some key =>
      match parseRange req.headers.range (getMaxRangeBytes env.rangeMaxBytes) with
      | .invalid => { status := 416, body := some "Range Not Satisfiable".toList }
      | .tooLarge => { status := 416, body := some "Range Not Satisfiable".toList }
      | .noRange => respondFull req env.bucketGet key
      | .window w =>
        match env.bucketGet key req.headers (some (w.offset, w.length)) with
        | none => { status := 404, body := some "Not Found".toList }
        | some obj =>
          match obj.body with
          | none => { status := 304, headers := build304Headers obj }
          | some b =>
            let headers := withCommonHeaders obj {}
            match obj.size with
            | some totalSize =>
              if w.start ≥ totalSize then
                { status := 416
                  headers := { contentRange := some (contentRangeUnsat totalSize) }
                  body := some "Range Not Satisfiable".toList }
              else
                let last := min (w.start + w.length - 1) (totalSize - 1)
                let length := last - w.start + 1
                { status := 206
                  headers := { headers with
                    contentRange := some (contentRangeStr w.start last (some totalSize))
                    contentLength := some (intStr length) }
                  body := bodyFor req.method b }
            | none =>
              let last := w.last
              let length := last - w.start + 1
              { status := 206
                headers := { headers with
                  contentRange := some (contentRangeStr w.start last none)
                  contentLength := some (intStr length) }
                body := bodyFor req.method b }

/-- `fetch(request, env)` of the eager-size variant (`src/unnamed/part_000`).
When `parseRange` returns `null` inside the range branch, control falls out
of the `if (hasValidRangeFormat(...))` block into the full-object tail. -/
def fetchEager (req : Request) (env : EnvE) : Response :=
  match req.method with
  | .other =>
    { status := 405, headers := { allow := some "GET, HEAD".toList }
      body := some "Method Not Allowed".toList }
  | _ =>
    match normalizeKey req.pathDecoded with
    | none => { status := 400, body := some "Bad Request".toList }
    | some key =>
      if hasValidRangeFormat req.headers.range then
        match env.bucketHead key with
        | none => { status := 404, body := some "Not Found".toList }
        | some head =>
          let size := head.size
          match parseRangeE req.headers.range size with
          | .unsatisfiable =>
            { status := 416
              headers := { contentRange := some (contentRangeUnsat size) }
              body := some "Range Not Satisfiable".toList }
          | .window w =>
            match env.bucketGet key req.headers (some (w.offset, w.length)) with
            | none => { status := 404, body := some "Not Found".toList }
            | some obj =>
              match obj.body with
              | none => { status := 304, headers := build304Headers obj }
              | some b =>
                let headers := withCommonHeaders obj {}
                { status := 206
                  headers := { headers with
                    contentRange := some (contentRangeStr w.start w.last (some size))
                    contentLength := some (intStr w.length) }
                  body := bodyFor req.method b }
          | .noRange => respondFull req env.bucketGet key
      else respondFull req env.bucketGet key

/-! ### Helper lemmas: the regex match on assembled headers -/

/-- The literal header string `bytes=<ds1>-<ds2>`. -/
def rangeHeaderStr (ds1 ds2 : List Char) : List Char :=
  'b' :: 'y' :: 't' :: 'e' :: 's' :: '=' :: (ds1 ++ '-' :: ds2)

theorem takeWhile_digits_dash (ds rest : List Char) (h : ds.all Char.isDigit = true) :
    (ds ++ '-' :: rest).takeWhile Char.isDigit = ds := by
  induction ds with
  | nil => simp [List.takeWhile_cons, (by decide : Char.isDigit '-' = false)]
  | cons c cs ih =>
    simp only [List.all_cons, Bool.and_eq_true] at h
    simp [List.takeWhile_cons, h.1, ih h.2]

theorem dropWhile_digits_dash (ds rest : List Char) (h : ds.all Char.isDigit = true) :
    (ds ++ '-' :: rest).dropWhile Char.isDigit = '-' :: rest := by
  induction ds with
  | nil => simp [List.dropWhile_cons, (by decide : Char.isDigit '-' = false)]
  | cons c cs ih =>
    simp only [List.all_cons, Bool.and_eq_true] at h
    simp [List.dropWhile_cons, h.1, ih h.2]

theorem matchBytesRange_mk (ds1 ds2 : List Char) (h1 : ds1.all Char.isDigit = true)
    (h2 : ds2.all Char.isDigit = true) :
    matchBytesRange (rangeHeaderStr ds1 ds2) = some (ds1, ds2) := by
  simp [matchBytesRange, rangeHeaderStr, takeWhile_digits_dash ds1 ds2 h1,
        dropWhile_digits_dash ds1 ds2 h1, h2]

/-! ### Helper lemmas: the deferred-size parser on each grammatical form -/

theorem parseRange_open (ds1 : List Char) (maxBytes : Int)
    (h1 : ds1.all Char.isDigit = true) (hne : ds1 ≠ []) :
    parseRange (some (rangeHeaderStr ds1 [])) maxBytes =
      .window ⟨digitsToNat ds1, maxBytes, digitsToNat ds1,
               (digitsToNat ds1 : Int) + maxBytes - 1⟩ := by
  have hm := matchBytesRange_mk ds1 [] h1 (by decide)
  simp only [rangeHeaderStr] at hm
  simp [parseRange, rangeHeaderStr, hm, hne]

theorem parseRange_closed (ds1 ds2 : List Char)
    (h1 : ds1.all Char.isDigit = true) (hne1 : ds1 ≠ [])
    (h2 : ds2.all Char.isDigit = true) (hne2 : ds2 ≠ []) (maxBytes : Int) :
    parseRange (some (rangeHeaderStr ds1 ds2)) maxBytes =
      (if (digitsToNat ds2 : Int) < digitsToNat ds1 then .invalid
       else if (digitsToNat ds2 : Int) - digitsToNat ds1 + 1 > maxBytes then .tooLarge
       else .window ⟨digitsToNat ds1, (digitsToNat ds2 : Int) - digitsToNat ds1 + 1,
                     digitsToNat ds1, digitsToNat ds2⟩) := by
  have hm := matchBytesRange_mk ds1 ds2 h1 h2
  obtain ⟨c, cs, rfl⟩ := List.exists_cons_of_ne_nil hne2
  simp only [rangeHeaderStr] at hm
  simp [parseRange, rangeHeaderStr, hm, hne1]

theorem parseRange_suffix (ds2 : List Char) (h2 : ds2.all Char.isDigit = true)
    (maxBytes : Int) :
    parseRange (some (rangeHeaderStr [] ds2)) maxBytes = .invalid := by
  have hm := matchBytesRange_mk [] ds2 (by decide) h2
  simp only [rangeHeaderStr, List.nil_append] at hm
  by_cases hne : ds2 = []
  · subst hne; simp [parseRange, rangeHeaderStr, hm]
  · simp [parseRange, rangeHeaderStr, hm, hne]

theorem parseRange_malformed (h : List Char) (hne : h ≠ [])
    (hm : matchBytesRange h = none) (maxBytes : Int) :
    parseRange (some h) maxBytes = .invalid := by
  simp [parseRange, hm, hne]

/-! ### Helper lemmas: the eager-size parser on each grammatical form -/

theorem parseRangeE_suffix (ds2 : List Char) (h2 : ds2.all Char.isDigit = true)
    (hne : ds2 ≠ []) (size : Int) :
    parseRangeE (some (rangeHeaderStr [] ds2)) size =
      (if (digitsToNat ds2 : Int) ≤ 0 then .noRange
       else .window ⟨max 0 (size - min ((digitsToNat ds2 : Int)) size),
                     min ((digitsToNat ds2 : Int)) size,
                     max 0 (size - min ((digitsToNat ds2 : Int)) size), size - 1⟩) := by
  have hm := matchBytesRange_mk [] ds2 (by decide) h2
  simp only [rangeHeaderStr, List.nil_append] at hm
  simp [parseRangeE, rangeHeaderStr, hm, hne]

theorem parseRangeE_open (ds1 : List Char) (h1 : ds1.all Char.isDigit = true)
    (hne : ds1 ≠ []) (size : Int) :
    parseRangeE (some (rangeHeaderStr ds1 [])) size =
      (if (digitsToNat ds1 : Int) ≥ size then .unsatisfiable
       else .window ⟨digitsToNat ds1, size - digitsToNat ds1,
                     digitsToNat ds1, size - 1⟩) := by
  have hm := matchBytesRange_mk ds1 [] h1 (by decide)
  simp only [rangeHeaderStr] at hm
  simp [parseRangeE, rangeHeaderStr, hm, hne]

theorem parseRangeE_closed (ds1 ds2 : List Char)
    (h1 : ds1.all Char.isDigit = true) (hne1 : ds1 ≠ [])
    (h2 : ds2.all Char.isDigit = true) (hne2 : ds2 ≠ []) (size : Int) :
    parseRangeE (some (rangeHeaderStr ds1 ds2)) size =
      (if (digitsToNat ds2 : Int) < digitsToNat ds1 then .noRange
       else if (digitsToNat ds1 : Int) ≥ size then .unsatisfiable
       else .window ⟨digitsToNat ds1,
                     min ((digitsToNat ds2 : Int)) (size - 1) - digitsToNat ds1 + 1,
                     digitsToNat ds1, min ((digitsToNat ds2 : Int)) (size - 1)⟩) := by
  have hm := matchBytesRange_mk ds1 ds2 h1 h2
  obtain ⟨c, cs, rfl⟩ := List.exists_cons_of_ne_nil hne2
  simp only [rangeHeaderStr] at hm
  simp [parseRangeE, rangeHeaderStr, hm, hne1]

theorem hasValidRangeFormat_mk (ds1 ds2 : List Char)
    (h1 : ds1.all Char.isDigit = true) (h2 : ds2.all Char.isDigit = true) :
    hasValidRangeFormat (some (rangeHeaderStr ds1 ds2)) = true := by
  have hm := matchBytesRange_mk ds1 ds2 h1 h2
  simp only [rangeHeaderStr] at hm
  simp [hasValidRangeFormat, rangeHeaderStr, hm]

/-! ### C7 -/

/--
**C7**: In the deferred-size variant, every suffix range `bytes=-K` and every
syntactically malformed `Range` header yields a 416 response that carries no
`Content-Range` header (no byte count is reported, since no size is
confirmed).
-/
theorem C7_deferred_suffix_and_malformed_give_bare_416 :
    (∀ (ds2 : List Char), ds2.all Char.isDigit = true → ds2 ≠ [] →
      ∀ (m : Method) (p key cond : List Char) (env : EnvD), m ≠ Method.other →
        normalizeKey (some p) = some key →
        fetchDeferred ⟨m, some p, ⟨some (rangeHeaderStr [] ds2), cond⟩⟩ env =
          { status := 416, body := some "Range Not Satisfiable".toList } ∧
        (fetchDeferred ⟨m, some p, ⟨some (rangeHeaderStr [] ds2), cond⟩⟩
            env).headers.contentRange = none) ∧
    (∀ (h : List Char), h ≠ [] → matchBytesRange h = none →
      ∀ (m : Method) (p key cond : List Char) (env : EnvD), m ≠ Method.other →
        normalizeKey (some p) = some key →
        fetchDeferred ⟨m, some p, ⟨some h, cond⟩⟩ env =
          { status := 416, body := some "Range Not Satisfiable".toList } ∧
        (fetchDeferred ⟨m, some p, ⟨some h, cond⟩⟩ env).headers.contentRange
          = none) := by
  constructor
  · intro ds2 h2 hne m p key cond env hm hkey
    have hr : fetchDeferred ⟨m, some p, ⟨some (rangeHeaderStr [] ds2), cond⟩⟩ env =
        { status := 416, body := some "Range Not Satisfiable".toList } := by
      cases m with
      | other => exact absurd rfl hm
      | GET => simp [fetchDeferred, hkey, parseRange_suffix ds2 h2]
      | HEAD => simp [fetchDeferred, hkey, parseRange_suffix ds2 h2]
    exact ⟨hr, by rw [hr]⟩
  · intro h hne hmm m p key cond env hm hkey
    have hr : fetchDeferred ⟨m, some p, ⟨some h, cond⟩⟩ env =
        { status := 416, body := some "Range Not Satisfiable".toList } := by
      cases m with
      | other => exact absurd rfl hm
      | GET => simp [fetchDeferred, hkey, parseRange_malformed h hne hmm]
      | HEAD => simp [fetchDeferred, hkey, parseRange_malformed h hne hmm]
    exact ⟨hr, by rw [hr]⟩

/-- Witness for C7 at the concrete header `bytes=-100` on path `/f`. -/
theorem C7_deferred_suffix_and_malformed_give_bare_416_witness :
    fetchDeferred ⟨Method.GET, some "/f".toList,
        ⟨some (rangeHeaderStr [] "100".toList), []⟩⟩
        ⟨some 1000, fun _ _ _ => none⟩ =
      { status := 416, body := some "Range Not Satisfiable".toList } ∧
    (fetchDeferred ⟨Method.GET, some "/f".toList,
        ⟨some (rangeHeaderStr [] "100".toList), []⟩⟩
        ⟨some 1000, fun _ _ _ => none⟩).headers.contentRange = none :=
  C7_deferred_suffix_and_malformed_give_bare_416.1 "100".toList (by decide)
    (by decide) Method.GET "/f".toList "f".toList [] ⟨some 1000, fun _ _ _ => none⟩
    (by decide) (by decide)

/-! ### C4 -/

/--
**C4**: In the deferred-size variant, every open-ended range `bytes=N-` with
valid `N` resolves to a window of length equal to the configured maximum with
`end = N + max - 1`; and every closed range `bytes=N-M` whose length
`M - N + 1` exceeds the configured maximum is rejected as too-large (416)
before any storage call is made (the response is the same for every bucket).
-/
theorem C4_deferred_open_cap_and_toolarge_rejected :
    (∀ (ds1 : List Char) (maxBytes : Int),
      ds1.all Char.isDigit = true → ds1 ≠ [] →
      parseRange (some (rangeHeaderStr ds1 [])) maxBytes =
        .window ⟨digitsToNat ds1, maxBytes, digitsToNat ds1,
                 (digitsToNat ds1 : Int) + maxBytes - 1⟩) ∧
    (∀ (ds1 ds2 : List Char),
      ds1.all Char.isDigit = true → ds1 ≠ [] →
      ds2.all Char.isDigit = true → ds2 ≠ [] →
      ∀ (m : Method) (p key cond : List Char) (env : EnvD), m ≠ Method.other →
        normalizeKey (some p) = some key →
        digitsToNat ds1 ≤ digitsToNat ds2 →
        (digitsToNat ds2 : Int) - digitsToNat ds1 + 1
            > getMaxRangeBytes env.rangeMaxBytes →
        parseRange (some (rangeHeaderStr ds1 ds2))
            (getMaxRangeBytes env.rangeMaxBytes) = .tooLarge ∧
        fetchDeferred ⟨m, some p, ⟨some (rangeHeaderStr ds1 ds2), cond⟩⟩ env =
          { status := 416, body := some "Range Not Satisfiable".toList }) := by
  constructor
  · intro ds1 maxBytes h1 hne
    exact parseRange_open ds1 maxBytes h1 hne
  · intro ds1 ds2 h1 hne1 h2 hne2 m p key cond env hm hkey hle hbig
    have htl : parseRange (some (rangeHeaderStr ds1 ds2))
        (getMaxRangeBytes env.rangeMaxBytes) = .tooLarge := by
      rw [parseRange_closed ds1 ds2 h1 hne1 h2 hne2]
      rw [if_neg (by exact_mod_cast not_lt.mpr hle), if_pos hbig]
    refine ⟨htl, ?_⟩
    cases m with
    | other => exact absurd rfl hm
    | GET => simp [fetchDeferred, hkey, htl]
    | HEAD => simp [fetchDeferred, hkey, htl]

/-- Witness for C4: `bytes=5-` with max 1000 resolves to length 1000 ending
at 1004, and `bytes=0-2000` with configured max 1000 is a bare 416 even
against a bucket that would have answered the fetch. -/
theorem C4_deferred_open_cap_and_toolarge_rejected_witness :
    parseRange (some (rangeHeaderStr "5".toList [])) 1000 =
      .window ⟨5, 1000, 5, 1004⟩ ∧
    (parseRange (some (rangeHeaderStr "0".toList "2000".toList))
        (getMaxRangeBytes (some 1000)) = .tooLarge ∧
     fetchDeferred ⟨Method.GET, some "/f".toList,
         ⟨some (rangeHeaderStr "0".toList "2000".toList), []⟩⟩
         ⟨some 1000, fun _ _ _ =>
           some ⟨some 5000, "e1".toList, "d1".toList, none, none,
                 some "x".toList⟩⟩ =
       { status := 416, body := some "Range Not Satisfiable".toList }) :=
  ⟨C4_deferred_open_cap_and_toolarge_rejected.1 "5".toList 1000 (by decide)
      (by decide),
   C4_deferred_open_cap_and_toolarge_rejected.2 "0".toList "2000".toList
      (by decide) (by decide) (by decide) (by decide) Method.GET "/f".toList
      "f".toList []
      ⟨some 1000, fun _ _ _ =>
        some ⟨some 5000, "e1".toList, "d1".toList, none, none,
              some "x".toList⟩⟩
      (by decide) (by decide) (by decide) (by decide)⟩

/-! ### C2 -/

/--
**C2**: In the eager-size variant, every suffix range `bytes=-K` with `K > 0`
and known size `S` resolves to `length = min K S`, `start = max 0 (S -
length)`, `end = S - 1`; in particular for `S = 50` and header `bytes=-100`
the response is 206 covering bytes 0-49 of 50 with length 50.
-/
theorem C2_eager_suffix_resolution :
    (∀ (ds2 : List Char), ds2.all Char.isDigit = true → ds2 ≠ [] →
      0 < digitsToNat ds2 → ∀ (S : Int),
      parseRangeE (some (rangeHeaderStr [] ds2)) S =
        .window ⟨max 0 (S - min ((digitsToNat ds2 : Int)) S),
                 min ((digitsToNat ds2 : Int)) S,
                 max 0 (S - min ((digitsToNat ds2 : Int)) S), S - 1⟩) ∧
    ((fetchEager ⟨Method.GET, some "/f".toList,
          ⟨some (rangeHeaderStr [] "100".toList), []⟩⟩
          ⟨fun _ => some ⟨50⟩,
           fun _ _ _ => some ⟨some 50, "e1".toList, "d1".toList, none, none,
                              some "x".toList⟩⟩).status = 206 ∧
     (fetchEager ⟨Method.GET, some "/f".toList,
          ⟨some (rangeHeaderStr [] "100".toList), []⟩⟩
          ⟨fun _ => some ⟨50⟩,
           fun _ _ _ => some ⟨some 50, "e1".toList, "d1".toList, none, none,
                              some "x".toList⟩⟩).headers.contentRange =
        some "bytes 0-49/50".toList ∧
     (fetchEager ⟨Method.GET, some "/f".toList,
          ⟨some (rangeHeaderStr [] "100".toList), []⟩⟩
          ⟨fun _ => some ⟨50⟩,
           fun _ _ _ => some ⟨some 50, "e1".toList, "d1".toList, none, none,
                              some "x".toList⟩⟩).headers.contentLength =
        some "50".toList) := by
  constructor
  · intro ds2 h2 hne hpos S
    rw [parseRangeE_suffix ds2 h2 hne S,
        if_neg (not_le.mpr (by exact_mod_cast hpos))]
  · refine ⟨by decide, by decide, by decide⟩

/-- Witness for C2 at `bytes=-100`, size 50. -/
theorem C2_eager_suffix_resolution_witness :
    parseRangeE (some (rangeHeaderStr [] "100".toList)) 50 =
      .window ⟨0, 50, 0, 49⟩ :=
  C2_eager_suffix_resolution.1 "100".toList (by decide) (by decide)
    (by decide) 50

/-! ### C6 -/

/--
**C6**: In the eager-size variant, for every open-ended range `bytes=N-` with
known size `S`: if `N ≥ S` the response is 416 with header
`Content-Range: bytes */S`; otherwise the resolved window has `end = S - 1`
and `length = S - N`.
-/
theorem C6_eager_open_range :
    ∀ (ds1 : List Char), ds1.all Char.isDigit = true → ds1 ≠ [] →
    ∀ (S : Int),
      (S ≤ (digitsToNat ds1 : Int) →
        parseRangeE (some (rangeHeaderStr ds1 [])) S = .unsatisfiable ∧
        (∀ (m : Method) (p key cond : List Char) (env : EnvE),
          m ≠ Method.other →
          normalizeKey (some p) = some key →
          env.bucketHead key = some ⟨S⟩ →
          fetchEager ⟨m, some p, ⟨some (rangeHeaderStr ds1 []), cond⟩⟩ env =
            { status := 416,
              headers := { contentRange := some (contentRangeUnsat S) },
              body := some "Range Not Satisfiable".toList })) ∧
      ((digitsToNat ds1 : Int) < S →
        parseRangeE (some (rangeHeaderStr ds1 [])) S =
          .window ⟨digitsToNat ds1, S - digitsToNat ds1,
                   digitsToNat ds1, S - 1⟩) := by
  intro ds1 h1 hne S
  constructor
  · intro hge
    have hp : parseRangeE (some (rangeHeaderStr ds1 [])) S = .unsatisfiable := by
      rw [parseRangeE_open ds1 h1 hne S, if_pos hge]
    refine ⟨hp, ?_⟩
    intro m p key cond env hm hkey hh
    cases m with
    | other => exact absurd rfl hm
    | GET =>
      simp [fetchEager, hkey, hasValidRangeFormat_mk ds1 [] h1 (by decide),
            hh, hp]
    | HEAD =>
      simp [fetchEager, hkey, hasValidRangeFormat_mk ds1 [] h1 (by decide),
            hh, hp]
  · intro hlt
    rw [parseRangeE_open ds1 h1 hne S, if_neg (not_le.mpr hlt)]

/-- Witness for C6: `bytes=1500-` against size 1000 → 416 with
`Content-Range: bytes */1000`. -/
theorem C6_eager_open_range_witness :
    parseRangeE (some (rangeHeaderStr "1500".toList [])) 1000 =
      .unsatisfiable ∧
    fetchEager ⟨Method.GET, some "/f".toList,
        ⟨some (rangeHeaderStr "1500".toList []), []⟩⟩
        ⟨fun _ => some ⟨1000⟩, fun _ _ _ => none⟩ =
      { status := 416,
        headers := { contentRange := some (contentRangeUnsat 1000) },
        body := some "Range Not Satisfiable".toList } :=
  ⟨((C6_eager_open_range "1500".toList (by decide) (by decide) 1000).1
      (by decide)).1,
   ((C6_eager_open_range "1500".toList (by decide) (by decide) 1000).1
      (by decide)).2 Method.GET "/f".toList "f".toList []
      ⟨fun _ => some ⟨1000⟩, fun _ _ _ => none⟩ (by decide) (by decide) rfl⟩

/-! ### C1 -/

/--
**C1**: In the deferred-size variant, for every ranged fetch that returns a
body: if the backend reports a numeric total size `S` and the computed
`start` is at or beyond `S`, the response is 416 with header
`Content-Range: bytes */S`; otherwise the response is 206 whose
`Content-Range` end is `min (start + requested length - 1) (S - 1)` and
whose `Content-Length` equals that actual returned length
(`end - start + 1`), not the requested length.
-/
theorem C1_deferred_post_fetch_reconciliation
    (hdr : List Char) (mv : Option Int) (w : ByteWindow) (m : Method)
    (p key cond : List Char)
    (g : List Char → ReqHeaders → Option (Int × Int) → Option GetResult)
    (obj : GetResult) (b : List Char) (S : Int)
    (hm : m ≠ Method.other)
    (hkey : normalizeKey (some p) = some key)
    (hparse : parseRange (some hdr) (getMaxRangeBytes mv) = .window w)
    (hget : g key ⟨some hdr, cond⟩ (some (w.offset, w.length)) = some obj)
    (hbody : obj.body = some b)
    (hsize : obj.size = some S) :
    (S ≤ w.start →
      fetchDeferred ⟨m, some p, ⟨some hdr, cond⟩⟩ ⟨mv, g⟩ =
        { status := 416,
          headers := { contentRange := some (contentRangeUnsat S) },
          body := some "Range Not Satisfiable".toList }) ∧
    (w.start < S →
      (fetchDeferred ⟨m, some p, ⟨some hdr, cond⟩⟩ ⟨mv, g⟩).status = 206 ∧
      (fetchDeferred ⟨m, some p, ⟨some hdr, cond⟩⟩ ⟨mv, g⟩).headers.contentRange
        = some (contentRangeStr w.start
                  (min (w.start + w.length - 1) (S - 1)) (some S)) ∧
      (fetchDeferred ⟨m, some p, ⟨some hdr, cond⟩⟩ ⟨mv, g⟩).headers.contentLength
        = some (intStr (min (w.start + w.length - 1) (S - 1) - w.start + 1))) := by
  constructor
  · intro hge
    cases m with
    | other => exact absurd rfl hm
    | GET =>
      simp only [fetchDeferred, hkey, hparse, hget, hbody, hsize]
      simp [if_pos hge, ge_iff_le, hge]
    | HEAD =>
      simp only [fetchDeferred, hkey, hparse, hget, hbody, hsize]
      simp [if_pos hge, ge_iff_le, hge]
  · intro hlt
    cases m with
    | other => exact absurd rfl hm
    | GET =>
      simp only [fetchDeferred, hkey, hparse, hget, hbody, hsize]
      simp [ge_iff_le, not_le.mpr hlt]
    | HEAD =>
      simp only [fetchDeferred, hkey, hparse, hget, hbody, hsize]
      simp [ge_iff_le, not_le.mpr hlt]

/-- Witness for C1: `bytes=0-9` against an object that turns out to have
size 5 → 206 with `Content-Range: bytes 0-4/5` and `Content-Length: 5`. -/
theorem C1_deferred_post_fetch_reconciliation_witness :
    (fetchDeferred ⟨Method.GET, some "/f".toList,
        ⟨some (rangeHeaderStr "0".toList "9".toList), []⟩⟩
        ⟨none, fun _ _ _ =>
          some ⟨some 5, "e1".toList, "d1".toList, none, none,
                some "abcde".toList⟩⟩).status = 206 ∧
    (fetchDeferred ⟨Method.GET, some "/f".toList,
        ⟨some (rangeHeaderStr "0".toList "9".toList), []⟩⟩
        ⟨none, fun _ _ _ =>
          some ⟨some 5, "e1".toList, "d1".toList, none, none,
                some "abcde".toList⟩⟩).headers.contentRange =
      some "bytes 0-4/5".toList ∧
    (fetchDeferred ⟨Method.GET, some "/f".toList,
        ⟨some (rangeHeaderStr "0".toList "9".toList), []⟩⟩
        ⟨none, fun _ _ _ =>
          some ⟨some 5, "e1".toList, "d1".toList, none, none,
                some "abcde".toList⟩⟩).headers.contentLength =
      some "5".toList :=
  (C1_deferred_post_fetch_reconciliation
      (rangeHeaderStr "0".toList "9".toList) none ⟨0, 10, 0, 9⟩ Method.GET
      "/f".toList "f".toList []
      (fun _ _ _ =>
        some ⟨some 5, "e1".toList, "d1".toList, none, none,
              some "abcde".toList⟩)
      ⟨some 5, "e1".toList, "d1".toList, none, none, some "abcde".toList⟩
      "abcde".toList 5 (by decide) (by decide) (by decide) rfl rfl rfl).2
    (by decide)

/-! ### C3 -/

/--
**C3 counterexample**: the claim says a grammar-matching but invalid range
(`bytes=N-M` with `M < N`) in the eager-size variant is a terminal 416 with
`Content-Range: bytes */size`.  At header `bytes=5-3` against an object of
size 10 the code instead ignores the range (`parseRange` returns null) and
serves the full object with status 200.
-/
theorem C3_counterexample_eager_invalid_range_is_200 :
    (fetchEager ⟨Method.GET, some "/f".toList,
        ⟨some (rangeHeaderStr "5".toList "3".toList), []⟩⟩
        ⟨fun _ => some ⟨10⟩,
         fun _ _ _ => some ⟨some 10, "e1".toList, "d1".toList, none, none,
                            some "0123456789".toList⟩⟩).status = 200 ∧
    ¬ (fetchEager ⟨Method.GET, some "/f".toList,
        ⟨some (rangeHeaderStr "5".toList "3".toList), []⟩⟩
        ⟨fun _ => some ⟨10⟩,
         fun _ _ _ => some ⟨some 10, "e1".toList, "d1".toList, none, none,
                            some "0123456789".toList⟩⟩).status = 416 := by
  constructor
  · decide
  · decide

/--
**C3 amended**: In the eager-size variant, a `Range` header that matches the
grammar but is invalid — closed form `bytes=N-M` with `M < N`, or suffix form
`bytes=-K` with `K ≤ 0` — is *ignored*: `parseRange` returns null and the
handler falls through to the full-object path (the response is exactly the
no-range response), rather than a 416.
-/
theorem C3_amended_eager_invalid_range_falls_through :
    (∀ (ds1 ds2 : List Char),
      ds1.all Char.isDigit = true → ds1 ≠ [] →
      ds2.all Char.isDigit = true → ds2 ≠ [] →
      digitsToNat ds2 < digitsToNat ds1 →
      ∀ (m : Method) (p key cond : List Char) (env : EnvE) (S : Int),
        m ≠ Method.other →
        normalizeKey (some p) = some key →
        env.bucketHead key = some ⟨S⟩ →
        fetchEager ⟨m, some p, ⟨some (rangeHeaderStr ds1 ds2), cond⟩⟩ env =
          respondFull ⟨m, some p, ⟨some (rangeHeaderStr ds1 ds2), cond⟩⟩
            env.bucketGet key) ∧
    (∀ (ds2 : List Char),
      ds2.all Char.isDigit = true → ds2 ≠ [] →
      digitsToNat ds2 = 0 →
      ∀ (m : Method) (p key cond : List Char) (env : EnvE) (S : Int),
        m ≠ Method.other →
        normalizeKey (some p) = some key →
        env.bucketHead key = some ⟨S⟩ →
        fetchEager ⟨m, some p, ⟨some (rangeHeaderStr [] ds2), cond⟩⟩ env =
          respondFull ⟨m, some p, ⟨some (rangeHeaderStr [] ds2), cond⟩⟩
            env.bucketGet key) := by
  constructor
  · intro ds1 ds2 h1 hne1 h2 hne2 hlt m p key cond env S hm hkey hh
    have hp : parseRangeE (some (rangeHeaderStr ds1 ds2)) S = .noRange := by
      rw [parseRangeE_closed ds1 ds2 h1 hne1 h2 hne2 S,
          if_pos (by exact_mod_cast hlt)]
    cases m with
    | other => exact absurd rfl hm
    | GET =>
      simp [fetchEager, hkey, hasValidRangeFormat_mk ds1 ds2 h1 h2, hh, hp]
    | HEAD =>
      simp [fetchEager, hkey, hasValidRangeFormat_mk ds1 ds2 h1 h2, hh, hp]
  · intro ds2 h2 hne hz m p key cond env S hm hkey hh
    have hp : parseRangeE (some (rangeHeaderStr [] ds2)) S = .noRange := by
      rw [parseRangeE_suffix ds2 h2 hne S, if_pos (by simp [hz])]
    cases m with
    | other => exact absurd rfl hm
    | GET =>
      simp [fetchEager, hkey, hasValidRangeFormat_mk [] ds2 (by decide) h2,
            hh, hp]
    | HEAD =>
      simp [fetchEager, hkey, hasValidRangeFormat_mk [] ds2 (by decide) h2,
            hh, hp]

/-- Witness for the amended C3 at `bytes=5-3`, size 10. -/
theorem C3_amended_eager_invalid_range_falls_through_witness :
    fetchEager ⟨Method.GET, some "/f".toList,
        ⟨some (rangeHeaderStr "5".toList "3".toList), []⟩⟩
        ⟨fun _ => some ⟨10⟩,
         fun _ _ _ => some ⟨some 10, "e1".toList, "d1".toList, none, none,
                            some "0123456789".toList⟩⟩ =
      respondFull ⟨Method.GET, some "/f".toList,
          ⟨some (rangeHeaderStr "5".toList "3".toList), []⟩⟩
        (fun _ _ _ => some ⟨some 10, "e1".toList, "d1".toList, none, none,
                            some "0123456789".toList⟩) "f".toList :=
  C3_amended_eager_invalid_range_falls_through.1 "5".toList "3".toList
    (by decide) (by decide) (by decide) (by decide) (by decide) Method.GET
    "/f".toList "f".toList []
    ⟨fun _ => some ⟨10⟩,
     fun _ _ _ => some ⟨some 10, "e1".toList, "d1".toList, none, none,
                        some "0123456789".toList⟩⟩ 10
    (by decide) (by decide) rfl

/-! ### C5 -/

/--
**C5 counterexample**: the claim says every resolved window from either
parser satisfies `0 ≤ start ≤ end` and `length = end - start + 1 ≥ 1`.  The
eager-size parser, given a suffix range `bytes=-5` against a size-0 object,
returns the resolved window `{offset 0, length 0, start 0, end -1}`,
violating both `start ≤ end` and `length ≥ 1`.
-/
theorem C5_counterexample_eager_suffix_size_zero :
    parseRangeE (some (rangeHeaderStr [] "5".toList)) 0 =
      .window ⟨0, 0, 0, -1⟩ ∧
    ¬ ((0 : Int) ≤ -1 ∧ 1 ≤ (0 : Int)) := by
  constructor
  · decide
  · decide

/--
**C5 amended**: every resolved window produced by the deferred-size parser
(whose maximum is ≥ 1, as `getMaxRangeBytes` guarantees) satisfies
`0 ≤ start ≤ end`, `offset = start`, `length = end - start + 1 ≥ 1`; the
same holds for the eager-size parser whenever the known size is ≥ 1 (the
sole exception being a suffix range against a size-0 object, which yields
`start = 0, end = -1, length = 0`).
-/
theorem C5_amended_window_invariants :
    (∀ (h : Option (List Char)) (maxBytes : Int) (w : ByteWindow),
      1 ≤ maxBytes → parseRange h maxBytes = .window w →
      0 ≤ w.start ∧ w.start ≤ w.last ∧ w.offset = w.start ∧
      w.length = w.last - w.start + 1 ∧ 1 ≤ w.length) ∧
    (∀ (h : Option (List Char)) (size : Int) (w : ByteWindow),
      1 ≤ size → parseRangeE h size = .window w →
      0 ≤ w.start ∧ w.start ≤ w.last ∧ w.offset = w.start ∧
      w.length = w.last - w.start + 1 ∧ 1 ≤ w.length) := by
  constructor
  · intro h maxBytes w hmax hw
    cases h with
    | none => exact absurd hw (by simp [parseRange])
    | some l =>
      simp only [parseRange] at hw
      repeat' split at hw
      all_goals
        first
          | exact RangeParseD.noConfusion hw
          | (injection hw with hww
             subst hww
             refine ⟨?_, ?_, ?_, ?_, ?_⟩ <;> dsimp <;> omega)
  · intro h size w hsize hw
    cases h with
    | none => exact absurd hw (by simp [parseRangeE])
    | some l =>
      simp only [parseRangeE] at hw
      repeat' split at hw
      all_goals
        first
          | exact RangeParseE.noConfusion hw
          | (injection hw with hww
             subst hww
             refine ⟨?_, ?_, ?_, ?_, ?_⟩ <;> dsimp <;> omega)

/-- Witness for the amended C5 on both parsers at `bytes=2-7`, max/size 100. -/
theorem C5_amended_window_invariants_witness :
    ((0 : Int) ≤ 2 ∧ (2 : Int) ≤ 7 ∧ (2 : Int) = 2 ∧
      (6 : Int) = 7 - 2 + 1 ∧ (1 : Int) ≤ 6) ∧
    ((0 : Int) ≤ 2 ∧ (2 : Int) ≤ 7 ∧ (2 : Int) = 2 ∧
      (6 : Int) = 7 - 2 + 1 ∧ (1 : Int) ≤ 6) :=
  ⟨C5_amended_window_invariants.1
      (some (rangeHeaderStr "2".toList "7".toList)) 100 ⟨2, 6, 2, 7⟩
      (by decide) (by decide),
   C5_amended_window_invariants.2
      (some (rangeHeaderStr "2".toList "7".toList)) 100 ⟨2, 6, 2, 7⟩
      (by decide) (by decide)⟩

/-! ### C8 -/

/--
**C8 counterexample**: the claim says any decoded, stripped key containing
`..` is rejected.  But the source applies the trailing-slash rule *before*
the `..` test, so the decoded path `/a/../` yields the key
`a/../index.html` — which contains `..` — instead of being rejected.
-/
theorem C8_counterexample_trailing_slash_dotdot_not_rejected :
    normalizeKey (some "/a/../".toList) = some "a/../index.html".toList ∧
    containsSub ['.', '.'] "a/../index.html".toList = true := by
  constructor
  · decide
  · decide

/--
**C8 amended**: key normalization behaves as: failed percent-decoding is
rejected (`none`); after stripping leading slashes, an empty result maps to
`index.html` and a result ending in `/` maps to the result followed by
`index.html` — *even when that result contains `..` or NUL, since the
traversal test is applied only after those two rules*; any other decoded,
stripped key containing `..` or an embedded NUL character is rejected;
every other key is returned unchanged.
-/
theorem C8_amended_normalizeKey_characterization :
    normalizeKey none = none ∧
    (∀ (k : List Char), k.dropWhile (· == '/') = [] →
        normalizeKey (some k) = some "index.html".toList) ∧
    (∀ (k s : List Char), k.dropWhile (· == '/') = s →
        endsWithSlash s = true →
        normalizeKey (some k) = some (s ++ "index.html".toList)) ∧
    (∀ (k s : List Char), k.dropWhile (· == '/') = s → s ≠ [] →
        endsWithSlash s = false →
        (containsSub ['.', '.'] s || containsSub [nulChar] s) = true →
        normalizeKey (some k) = none) ∧
    (∀ (k s : List Char), k.dropWhile (· == '/') = s → s ≠ [] →
        endsWithSlash s = false →
        (containsSub ['.', '.'] s || containsSub [nulChar] s) = false →
        normalizeKey (some k) = some s) := by
  refine ⟨rfl, ?_, ?_, ?_, ?_⟩
  · intro k hstrip
    simp [normalizeKey, hstrip]
  · intro k s hstrip hslash
    have hne : s ≠ [] := by
      intro hs; subst hs; simp [endsWithSlash] at hslash
    simp [normalizeKey, hstrip, hne, hslash]
  · intro k s hstrip hne hslash hcontains
    simp [normalizeKey, hstrip, hne, hslash, hcontains]
  · intro k s hstrip hne hslash hcontains
    simp only [Bool.or_eq_false_iff] at hcontains
    simp [normalizeKey, hstrip, hne, hslash, hcontains.1, hcontains.2]

/-- Witness for the amended C8: the traversal path `/a/b/../c` is rejected
and the plain path `/ok.txt` maps to the key `ok.txt`. -/
theorem C8_amended_normalizeKey_characterization_witness :
    normalizeKey (some "/a/b/../c".toList) = none ∧
    normalizeKey (some "/ok.txt".toList) = some "ok.txt".toList :=
  ⟨C8_amended_normalizeKey_characterization.2.2.2.1 "/a/b/../c".toList
      "a/b/../c".toList (by decide) (by decide) (by decide) (by decide),
   C8_amended_normalizeKey_characterization.2.2.2.2 "/ok.txt".toList
      "ok.txt".toList (by decide) (by decide) (by decide) (by decide)⟩

/-! ### C10 -/

/--
**C10**: For every not-modified outcome (backend returns metadata without a
body) in either variant — including when the request carried a `Range`
header — the 304 response's headers are exactly `ETag` and `Last-Modified`
plus `Cache-Control` when present (truthy) in the object's metadata;
`Accept-Ranges`, `Content-Length` and `Content-Range` are absent.
-/
theorem C10_not_modified_header_set :
    (∀ (obj : GetResult),
      (build304Headers obj).etag = some obj.httpEtag ∧
      (build304Headers obj).lastModified = some obj.uploadedUTC ∧
      (truthyStr obj.cacheControl = true →
        (build304Headers obj).cacheControl = obj.cacheControl) ∧
      (truthyStr obj.cacheControl = false →
        (build304Headers obj).cacheControl = none) ∧
      (build304Headers obj).acceptRanges = none ∧
      (build304Headers obj).contentLength = none ∧
      (build304Headers obj).contentRange = none ∧
      (build304Headers obj).contentType = none ∧
      (build304Headers obj).allow = none) ∧
    (∀ (hdr : List Char) (mv : Option Int) (w : ByteWindow) (m : Method)
        (p key cond : List Char)
        (g : List Char → ReqHeaders → Option (Int × Int) → Option GetResult)
        (obj : GetResult),
      m ≠ Method.other →
      normalizeKey (some p) = some key →
      parseRange (some hdr) (getMaxRangeBytes mv) = .window w →
      g key ⟨some hdr, cond⟩ (some (w.offset, w.length)) = some obj →
      obj.body = none →
      fetchDeferred ⟨m, some p, ⟨some hdr, cond⟩⟩ ⟨mv, g⟩ =
        { status := 304, headers := build304Headers obj }) ∧
    (∀ (hdr : List Char) (S : Int) (w : ByteWindow) (m : Method)
        (p key cond : List Char) (env : EnvE) (obj : GetResult),
      m ≠ Method.other →
      normalizeKey (some p) = some key →
      hasValidRangeFormat (some hdr) = true →
      env.bucketHead key = some ⟨S⟩ →
      parseRangeE (some hdr) S = .window w →
      env.bucketGet key ⟨some hdr, cond⟩ (some (w.offset, w.length)) = some obj →
      obj.body = none →
      fetchEager ⟨m, some p, ⟨some hdr, cond⟩⟩ env =
        { status := 304, headers := build304Headers obj }) := by
  refine ⟨?_, ?_, ?_⟩
  · intro obj
    refine ⟨rfl, rfl, ?_, ?_, rfl, rfl, rfl, rfl, rfl⟩
    · intro ht; simp [build304Headers, ht]
    · intro ht; simp [build304Headers, ht]
  · intro hdr mv w m p key cond g obj hm hkey hp hg hb
    cases m with
    | other => exact absurd rfl hm
    | GET => simp [fetchDeferred, hkey, hp, hg, hb]
    | HEAD => simp [fetchDeferred, hkey, hp, hg, hb]
  · intro hdr S w m p key cond env obj hm hkey hvalid hh hp hg hb
    cases m with
    | other => exact absurd rfl hm
    | GET => simp [fetchEager, hkey, hvalid, hh, hp, hg, hb]
    | HEAD => simp [fetchEager, hkey, hvalid, hh, hp, hg, hb]

/-- Witness for C10: a conditional ranged request whose backend signals
not-modified yields exactly the reduced 304 header set. -/
theorem C10_not_modified_header_set_witness :
    fetchDeferred ⟨Method.GET, some "/f".toList,
        ⟨some (rangeHeaderStr "0".toList "9".toList), "v1".toList⟩⟩
        ⟨none, fun _ _ _ =>
          some ⟨some 100, "e1".toList, "d1".toList, some "cc1".toList, none,
                none⟩⟩ =
      { status := 304,
        headers := build304Headers
          ⟨some 100, "e1".toList, "d1".toList, some "cc1".toList, none,
           none⟩ } :=
  C10_not_modified_header_set.2.1 (rangeHeaderStr "0".toList "9".toList)
    none ⟨0, 10, 0, 9⟩ Method.GET "/f".toList "f".toList "v1".toList
    (fun _ _ _ =>
      some ⟨some 100, "e1".toList, "d1".toList, some "cc1".toList, none,
            none⟩)
    ⟨some 100, "e1".toList, "d1".toList, some "cc1".toList, none, none⟩
    (by decide) (by decide) (by decide) rfl rfl

/-! ### C9 -/

/-- The full-object tail ignores the method for status and headers, and a
`HEAD` request's body is suppressed on its success statuses. -/
theorem respondFull_method_facts (pd : Option (List Char)) (h : ReqHeaders)
    (g : List Char → ReqHeaders → Option (Int × Int) → Option GetResult)
    (key : List Char) :
    ((respondFull ⟨Method.GET, pd, h⟩ g key).status =
       (respondFull ⟨Method.HEAD, pd, h⟩ g key).status ∧
     (respondFull ⟨Method.GET, pd, h⟩ g key).headers =
       (respondFull ⟨Method.HEAD, pd, h⟩ g key).headers) ∧
    (((respondFull ⟨Method.HEAD, pd, h⟩ g key).status = 200 ∨
      (respondFull ⟨Method.HEAD, pd, h⟩ g key).status = 206 ∨
      (respondFull ⟨Method.HEAD, pd, h⟩ g key).status = 304) →
      (respondFull ⟨Method.HEAD, pd, h⟩ g key).body = none) := by
  cases hg : g key h none with
  | none =>
    refine ⟨by simp [respondFull, hg], ?_⟩
    intro hst
    simp [respondFull, hg] at hst
  | some obj =>
    cases hb : obj.body with
    | none =>
      refine ⟨by simp [respondFull, hg, hb], ?_⟩
      intro _
      simp [respondFull, hg, hb]
    | some b =>
      refine ⟨by simp [respondFull, hg, hb], ?_⟩
      intro _
      simp [respondFull, hg, hb, bodyFor]

/--
**C9 counterexample**: the claim says a `HEAD` response's body is empty
regardless of outcome, but on an error outcome (missing object) the handler
returns the same short fixed body as for `GET`: a `HEAD` request for a
missing key yields 404 with body `Not Found`, not an empty body.
-/
theorem C9_counterexample_head_404_body_not_empty :
    (fetchDeferred ⟨Method.HEAD, some "/f".toList, ⟨none, []⟩⟩
        ⟨none, fun _ _ _ => none⟩).status = 404 ∧
    ¬ (fetchDeferred ⟨Method.HEAD, some "/f".toList, ⟨none, []⟩⟩
        ⟨none, fun _ _ _ => none⟩).body = none := by
  constructor
  · decide
  · decide

/--
**C9 amended**: in both variants a `HEAD` request produces the same status
and headers as the corresponding `GET` request (same path, same headers,
same backend), and the `HEAD` response's body is empty on the success
outcomes (200, 206, 304).  On error outcomes (400/404/405/416) the handler
itself attaches the same short fixed body as for `GET` (its suppression is
left to the HTTP runtime).
-/
theorem C9_amended_head_matches_get :
    (∀ (pd : Option (List Char)) (h : ReqHeaders) (env : EnvD),
      (fetchDeferred ⟨Method.GET, pd, h⟩ env).status =
        (fetchDeferred ⟨Method.HEAD, pd, h⟩ env).status ∧
      (fetchDeferred ⟨Method.GET, pd, h⟩ env).headers =
        (fetchDeferred ⟨Method.HEAD, pd, h⟩ env).headers) ∧
    (∀ (pd : Option (List Char)) (h : ReqHeaders) (env : EnvD),
      ((fetchDeferred ⟨Method.HEAD, pd, h⟩ env).status = 200 ∨
       (fetchDeferred ⟨Method.HEAD, pd, h⟩ env).status = 206 ∨
       (fetchDeferred ⟨Method.HEAD, pd, h⟩ env).status = 304) →
      (fetchDeferred ⟨Method.HEAD, pd, h⟩ env).body = none) ∧
    (∀ (pd : Option (List Char)) (h : ReqHeaders) (env : EnvE),
      (fetchEager ⟨Method.GET, pd, h⟩ env).status =
        (fetchEager ⟨Method.HEAD, pd, h⟩ env).status ∧
      (fetchEager ⟨Method.GET, pd, h⟩ env).headers =
        (fetchEager ⟨Method.HEAD, pd, h⟩ env).headers) ∧
    (∀ (pd : Option (List Char)) (h : ReqHeaders) (env : EnvE),
      ((fetchEager ⟨Method.HEAD, pd, h⟩ env).status = 200 ∨
       (fetchEager ⟨Method.HEAD, pd, h⟩ env).status = 206 ∨
       (fetchEager ⟨Method.HEAD, pd, h⟩ env).status = 304) →
      (fetchEager ⟨Method.HEAD, pd, h⟩ env).body = none) := by
  refine ⟨?_, ?_, ?_, ?_⟩
  · intro pd h env
    cases hkey : normalizeKey pd with
    | none => simp [fetchDeferred, hkey]
    | some key =>
      cases hp : parseRange h.range (getMaxRangeBytes env.rangeMaxBytes) with
      | invalid => simp [fetchDeferred, hkey, hp]
      | tooLarge => simp [fetchDeferred, hkey, hp]
      | noRange =>
        simp only [fetchDeferred, hkey, hp]
        exact (respondFull_method_facts pd h env.bucketGet key).1
      | window w =>
        cases hg : env.bucketGet key h (some (w.offset, w.length)) with
        | none => simp [fetchDeferred, hkey, hp, hg]
        | some obj =>
          cases hb : obj.body with
          | none => simp [fetchDeferred, hkey, hp, hg, hb]
          | some b =>
            cases hs : obj.size with
            | none => simp [fetchDeferred, hkey, hp, hg, hb, hs]
            | some S =>
              by_cases hge : S ≤ w.start
              · simp [fetchDeferred, hkey, hp, hg, hb, hs, hge]
              · simp [fetchDeferred, hkey, hp, hg, hb, hs, hge]
  · intro pd h env
    cases hkey : normalizeKey pd with
    | none => intro hst; simp [fetchDeferred, hkey] at hst
    | some key =>
      cases hp : parseRange h.range (getMaxRangeBytes env.rangeMaxBytes) with
      | invalid => intro hst; simp [fetchDeferred, hkey, hp] at hst
      | tooLarge => intro hst; simp [fetchDeferred, hkey, hp] at hst
      | noRange =>
        intro hst
        simp only [fetchDeferred, hkey, hp] at hst ⊢
        exact (respondFull_method_facts pd h env.bucketGet key).2 hst
      | window w =>
        cases hg : env.bucketGet key h (some (w.offset, w.length)) with
        | none => intro hst; simp [fetchDeferred, hkey, hp, hg] at hst
        | some obj =>
          cases hb : obj.body with
          | none => intro _; simp [fetchDeferred, hkey, hp, hg, hb]
          | some b =>
            cases hs : obj.size with
            | none =>
              intro _
              simp [fetchDeferred, hkey, hp, hg, hb, hs, bodyFor]
            | some S =>
              by_cases hge : S ≤ w.start
              · intro hst
                simp [fetchDeferred, hkey, hp, hg, hb, hs, hge] at hst
              · intro _
                simp [fetchDeferred, hkey, hp, hg, hb, hs, hge, bodyFor]
  · intro pd h env
    cases hkey : normalizeKey pd with
    | none => simp [fetchEager, hkey]
    | some key =>
      cases hv : hasValidRangeFormat h.range with
      | false =>
        simp only [fetchEager, hkey, hv]
        exact (respondFull_method_facts pd h env.bucketGet key).1
      | true =>
        cases hh : env.bucketHead key with
        | none => simp [fetchEager, hkey, hv, hh]
        | some head =>
          cases hp : parseRangeE h.range head.size with
          | unsatisfiable => simp [fetchEager, hkey, hv, hh, hp]
          | noRange =>
            simp only [fetchEager, hkey, hv, hh, hp]
            exact (respondFull_method_facts pd h env.bucketGet key).1
          | window w =>
            cases hg : env.bucketGet key h (some (w.offset, w.length)) with
            | none => simp [fetchEager, hkey, hv, hh, hp, hg]
            | some obj =>
              cases hb : obj.body with
              | none => simp [fetchEager, hkey, hv, hh, hp, hg, hb]
              | some b => simp [fetchEager, hkey, hv, hh, hp, hg, hb]
  · intro pd h env
    cases hkey : normalizeKey pd with
    | none => intro hst; simp [fetchEager, hkey] at hst
    | some key =>
      cases hv : hasValidRangeFormat h.range with
      | false =>
        intro hst
        simp only [fetchEager, hkey, hv] at hst ⊢
        exact (respondFull_method_facts pd h env.bucketGet key).2 hst
      | true =>
        cases hh : env.bucketHead key with
        | none => intro hst; simp [fetchEager, hkey, hv, hh] at hst
        | some head =>
          cases hp : parseRangeE h.range head.size with
          | unsatisfiable => intro hst; simp [fetchEager, hkey, hv, hh, hp] at hst
          | noRange =>
            intro hst
            simp only [fetchEager, hkey, hv, hh, hp] at hst ⊢
            exact (respondFull_method_facts pd h env.bucketGet key).2 hst
          | window w =>
            cases hg : env.bucketGet key h (some (w.offset, w.length)) with
            | none => intro hst; simp [fetchEager, hkey, hv, hh, hp, hg] at hst
            | some obj =>
              cases hb : obj.body with
              | none => intro _; simp [fetchEager, hkey, hv, hh, hp, hg, hb]
              | some b =>
                intro _
                simp [fetchEager, hkey, hv, hh, hp, hg, hb, bodyFor]

/-- Witness for the amended C9: a `HEAD` fetch of an existing object has an
empty body in both variants. -/
theorem C9_amended_head_matches_get_witness :
    (fetchDeferred ⟨Method.HEAD, some "/f".toList, ⟨none, []⟩⟩
        ⟨none, fun _ _ _ =>
          some ⟨some 3, "e1".toList, "d1".toList, none, none,
                some "abc".toList⟩⟩).body = none ∧
    (fetchEager ⟨Method.HEAD, some "/f".toList, ⟨none, []⟩⟩
        ⟨fun _ => some ⟨3⟩,
         fun _ _ _ =>
          some ⟨some 3, "e1".toList, "d1".toList, none, none,
                some "abc".toList⟩⟩).body = none :=
  ⟨C9_amended_head_matches_get.2.1 (some "/f".toList) ⟨none, []⟩
      ⟨none, fun _ _ _ =>
        some ⟨some 3, "e1".toList, "d1".toList, none, none,
              some "abc".toList⟩⟩ (Or.inl (by decide)),
   C9_amended_head_matches_get.2.2.2 (some "/f".toList) ⟨none, []⟩
      ⟨fun _ => some ⟨3⟩,
       fun _ _ _ =>
        some ⟨some 3, "e1".toList, "d1".toList, none, none,
              some "abc".toList⟩⟩ (Or.inl (by decide))⟩

end FlareCloud
